import Mathlib

/-!
Verification of the sqlite-to-mongodb migration script
(src/sqlite-to-mongodb.py).

The script is shallowly embedded: every helper function of the script
becomes a Lean function, the mutable globals (the mongo collection, the
counters, the transient `license` string) become an explicit state record
threaded through the per-file / per-repository / whole-run loops, and the
two stores become pure values (a record of row lists for the sqlite side, a
list of documents for the mongo side).  Side effects that the claims do not
talk about (terminal rendering, the fixed 0.72 s throttle sleep, wall-clock
formatting) are not modelled; comments at each definition record exactly
which source lines it embeds.
-/

namespace Script

/-! ## Compiler-version extraction (src lines 252-257)

`get_compiler_version` applies the Python regex
`pragma solidity [<>^]?=?\s*([\d.]+)` via `re.search`, returning the first
capture or `None`.  The character classes of the optional parts
(`[<>^]`, `=`, `\s`) and of the capture (`[\d.]`) are pairwise disjoint,
so the regex is matched by a deterministic greedy scanner with no
backtracking: at each start position try the literal `"pragma solidity "`,
then one optional operator character, one optional `=`, any run of
whitespace, then a non-empty run of digits/periods (the capture).
`re.search` returns the leftmost such match.  `\s` is modelled by the six
ASCII whitespace characters and `\d` by the ASCII digits. -/

/-- One character of the Python `\s` class (ASCII fragment). -/
def isWS (c : Char) : Bool :=
  c = ' ' || c = '\t' || c = '\n' || c = '\r' || c = '\x0b' || c = '\x0c'

/-- One character of the capture class `[\d.]`. -/
def isVerChar (c : Char) : Bool :=
  c.isDigit || c = '.'

/-- Consume an exact literal at the head of a character list, returning the
rest, or fail. -/
def dropLit : List Char → List Char → Option (List Char)
  | [], s => some s
  | _ :: _, [] => none
  | l :: ls, c :: cs => if c = l then dropLit ls cs else none

/-- Try to match `pragma solidity [<>^]?=?\s*([\d.]+)` starting exactly at
the head of `s`; return the capture group on success. -/
def matchPragmaAt (s : List Char) : Option (List Char) :=
  match dropLit ("pragma solidity ".data) s with
  | none => none
  | some s1 =>
    let s2 := match s1 with
      | c :: cs => if c = '<' || c = '>' || c = '^' then cs else s1
      | [] => s1
    let s3 := match s2 with
      | c :: cs => if c = '=' then cs else s2
      | [] => s2
    let s4 := s3.dropWhile isWS
    let ver := s4.takeWhile isVerChar
    if ver.isEmpty then none else some ver

/-- Leftmost match, as `re.search` does: scan start positions left to
right. -/
def searchPragma : List Char → Option (List Char)
  | [] => none
  | c :: cs =>
    match matchPragmaAt (c :: cs) with
    | some v => some v
    | none => searchPragma cs

/-- Embeds `get_compiler_version` (src lines 252-257): first regex match's
capture group, `none` when the pattern occurs nowhere. -/
def get_compiler_version (content : String) : Option String :=
  (searchPragma content.data).map (fun l => String.mk l)

/-! ## File-extension guard (src lines 268-272) -/

/-- `str.endswith suffix`, computed on character lists so that concrete
instances reduce in the kernel. -/
def strEndsWith (s suffix : String) : Bool :=
  (dropLit suffix.data.reverse s.data.reverse).isSome

/-- Embeds `check_file_extension` (src lines 268-272):
`path.endswith(".json")`. -/
def check_file_extension (path : String) : Bool :=
  if strEndsWith path ".json" then true else false

/-! ## License classifier (src lines 235-247)

`check_license` calls the GitHub API for the repository and decides
membership of the returned license key in a hard-coded allow-list.  The
API call is modelled by its result: `none` stands for the sentinel `0`
that `get` returns on a non-200 (non-403) status, `some g` for a parsed
JSON body.  In the body, `g.license = none` models a JSON `null` license
field and `some key` the license object's `"key"` entry; the Python
truthiness test on the key is an emptiness test on the string.  The
mutable global `license` is threaded explicitly: the function takes the
current value and returns the new one next to its boolean result. -/

/-- The allow-list hard-coded in `check_license` (src lines 236-238). -/
def licenses : List String :=
  ["apache-2.0", "agpl-3.0", "bsd-2-clause", "bsd-3-clause", "bsl-1.0",
   "cc0-1.0", "epl-2.0", "gpl-2.0", "gpl-3.0", "lgpl-2.1", "mit",
   "mpl-2.0", "unlicense"]

/-- Parsed repository metadata returned by the GitHub API. -/
structure GHRepo where
  license : Option String
  deriving DecidableEq

/-- Embeds `check_license` (src lines 235-247).  First component: the
returned boolean; second: the value of the global `license` after the
call. -/
def check_license (res : Option GHRepo) (lic : String) : Bool × String :=
  match res with
  | none => (false, lic)
  | some g =>
    match g.license with
    | none => (false, lic)
    | some key =>
      if key ≠ "" ∧ key ∈ licenses then (true, key) else (false, lic)

/-! ## Rate-limited API client (src lines 179-224)

`get(url)` sleeps 0.72 s, issues the request, and then: on a
`ConnectionError` calls `signal_handler` (which closes both store
connections, prints the summary and calls `sys.exit(0)`); on status 403
delegates to `handle_rate_limit_error`, which computes a wait from the
response headers, sleeps, and re-issues `get(res.url)`; on any other
non-200 status returns the sentinel `0`; on 200 returns the response.
`http_requests` is incremented once per completed `requests.get` call.

The network is modelled by a script: the list of events the successive
requests would observe.  The clock is an integer number of seconds
(`time.time()` at the moment the wait is computed); the fixed 0.72 s
throttle sleep and sub-second drift are below this granularity and are
not tracked.  The trace records the outcome, the number of
`http_requests` increments, every rate-limit sleep, and the URL of every
request issued. -/

/-- An HTTP response as the script sees it: status plus the two headers
`handle_rate_limit_error` reads, plus `res.url`. -/
structure HttpResp where
  status : Nat
  xRateLimitReset : Option Int
  retryAfter : Option Int
  url : String
  deriving DecidableEq

/-- One network event: either a response arrives or the connection fails
(`requests.ConnectionError`). -/
inductive NetEvent where
  | resp (r : HttpResp)
  | connFail
  deriving DecidableEq

/-- What `get` produces for its caller. -/
inductive GetResult where
  | ok (r : HttpResp)
  | sentinel
  | connError
  deriving DecidableEq

/-- Observable trace of one `get` call (including its recursive
retries). `result = none` only when the model's script runs out. -/
structure GetTrace where
  result : Option GetResult
  httpRequests : Nat
  sleeps : List Int
  requestedUrls : List String
  deriving DecidableEq

/-- The wait computed by `handle_rate_limit_error` (src lines 215-219):
`max(0, reset - now)` when `X-RateLimit-Reset` is present, else
`Retry-After` defaulting to 60. -/
def rateLimitWait (r : HttpResp) (now : Int) : Int :=
  match r.xRateLimitReset with
  | some t => max 0 (t - now)
  | none => r.retryAfter.getD 60

/-- Embeds `get` (src lines 198-212) over a scripted network.  In the
source the 403 branch calls `handle_rate_limit_error`, which in turn
recurses into `get`; here the body of `handle_rate_limit_error` (src
lines 214-224) is inlined into the 403 branch so that the recursion is
structural on the script (the lemma `get_resp_403` below re-establishes
the source's call shape against the stand-alone
`handle_rate_limit_error`). -/
def get (url : String) (now : Int) : List NetEvent → GetTrace
  | [] => ⟨none, 0, [], []⟩
  | NetEvent.connFail :: _ => ⟨some GetResult.connError, 0, [], [url]⟩
  | NetEvent.resp r :: rest =>
    if r.status = 403 then
      -- `handle_rate_limit_error(res)` (src lines 214-224): compute the
      -- wait, sleep it, re-issue `get(res.url)` and return its result.
      let t := rateLimitWait r now
      let tr := get r.url (now + t) rest
      ⟨tr.result, tr.httpRequests + 1, t :: tr.sleeps, url :: tr.requestedUrls⟩
    else if r.status ≠ 200 then ⟨some GetResult.sentinel, 1, [], [url]⟩
    else ⟨some (GetResult.ok r), 1, [], [url]⟩

/-- Embeds `handle_rate_limit_error` (src lines 214-224) stand-alone:
compute the wait, sleep it, re-issue `get(res.url)` and pass its result
through. -/
def handle_rate_limit_error (r : HttpResp) (now : Int) (rest : List NetEvent) :
    GetTrace :=
  let t := rateLimitWait r now
  let tr := get r.url (now + t) rest
  ⟨tr.result, tr.httpRequests, t :: tr.sleeps, tr.requestedUrls⟩

/-! ## Shutdown path (src lines 179-187)

`signal_handler` commits and closes the sqlite connection, closes the
mongo client, prints the summary (elapsed time and request count), and
calls `sys.exit(0)`.  It is installed for SIGINT and reused verbatim for
the `ConnectionError` branch of `get`. -/

/-- Which process resources are still open. -/
structure ProcState where
  dbOpen : Bool
  mongoOpen : Bool
  deriving DecidableEq

/-- Result of the shutdown sequence: final resource state, whether the
summary lines were printed, and the argument handed to `sys.exit`. -/
structure ShutdownTrace where
  final : ProcState
  summaryEmitted : Bool
  exitCode : Nat
  deriving DecidableEq

/-- Embeds `signal_handler` (src lines 179-187): close both connections,
print the summary, `sys.exit(0)`. -/
def signal_handler (s : ProcState) : ShutdownTrace :=
  ⟨{ s with dbOpen := false, mongoOpen := false }, true, 0⟩

/-! ## Source-store rows (src lines 298-364)

The sqlite queries are modelled over a record of row lists.  The `repo`
table is read with `SELECT *`; the loop uses columns 0 (repo_id), 2
(full_name), 3 (description), 4 (url) and 6 (owner_id); column 1 (the bare
name) is carried for completeness and the remaining unused columns are not
modelled.  The `file` query projects `file_id, name, path, sha` and
filters on `repo_id`; the `comit` query projects
`sha, message, size, created, content, parents`, filters on `file_id` and
orders by `created` ascending. -/

/-- One row of the `repo` table (the columns the script reads). -/
structure Repo where
  repo_id : Int
  name : String
  full_name : String
  description : String
  url : String
  owner_id : Int
  deriving DecidableEq

/-- One row of the `file` table as projected by the query on src line 327,
plus the `repo_id` foreign key the WHERE clause filters on. -/
structure FileRow where
  file_id : Int
  name : String
  path : String
  sha : String
  repo_id : Int
  deriving DecidableEq

/-- One row of the `comit` table as projected by the query on src lines
358-359, plus the `file_id` foreign key the WHERE clause filters on. -/
structure VersionRow where
  file_id : Int
  sha : String
  message : String
  size : Int
  created : Int
  content : String
  parents : String
  deriving DecidableEq

/-- The sqlite database: the three tables the script reads. -/
structure SourceStore where
  repos : List Repo
  files : List FileRow
  comits : List VersionRow
  deriving DecidableEq

/-- `SELECT file_id, name, path, sha FROM file WHERE repo_id = ?`
(src line 327). -/
def filesFor (src : SourceStore) (rid : Int) : List FileRow :=
  src.files.filter (fun f => f.repo_id == rid)

/-- The comparison realising `ORDER BY created` (ascending). -/
def createdLE (a b : VersionRow) : Prop :=
  a.created ≤ b.created

instance : DecidableRel createdLE :=
  fun a b => inferInstanceAs (Decidable (a.created ≤ b.created))

instance : IsTotal VersionRow createdLE :=
  ⟨fun a b => Int.le_total a.created b.created⟩

instance : IsTrans VersionRow createdLE :=
  ⟨fun _ _ _ h h2 => le_trans h h2⟩

/-- `SELECT sha, message, size, created, content, parents FROM comit WHERE
file_id = ? ORDER BY created` (src lines 358-359): the matching rows in
ascending `created` order. -/
def versionsFor (src : SourceStore) (fid : Int) : List VersionRow :=
  List.insertionSort createdLE (src.comits.filter (fun v => v.file_id == fid))

/-! ## The Document (src lines 341-376) -/

/-- The nested `repo` object of a Document (src lines 348-354). -/
structure RepoDoc where
  repo_id : Int
  full_name : String
  description : String
  url : String
  owner_id : Int
  deriving DecidableEq

/-- One entry of a Document's `versions` array (src lines 365-374). -/
structure VersionDoc where
  version_id : Nat
  sha : String
  message : String
  size : Int
  created : Int
  compiler_version : Option String
  content : String
  parents : String
  deriving DecidableEq

/-- The document uploaded to mongo, one per file (src lines 341-356). -/
structure Document where
  name : String
  path : String
  sha : String
  language : String
  license : String
  repo : RepoDoc
  versions : List VersionDoc
  deriving DecidableEq

/-- The versions loop (src lines 363-375): append one entry per version
row, `version_id` counting up from `vid`, `compiler_version` extracted
from the row's raw content. -/
def buildVersions (vid : Nat) : List VersionRow → List VersionDoc
  | [] => []
  | v :: vs =>
    { version_id := vid, sha := v.sha, message := v.message, size := v.size,
      created := v.created, compiler_version := get_compiler_version v.content,
      content := v.content, parents := v.parents } :: buildVersions (vid + 1) vs

/-- The document construction (src lines 341-375): the literal on lines
341-356 with `versions` filled by the loop on lines 363-375.  `lic` is the
value of the global `license` at that point. -/
def buildDocument (r : Repo) (f : FileRow) (lic : String)
    (vs : List VersionRow) : Document :=
  { name := f.name, path := f.path, sha := f.sha, language := "Solidity",
    license := lic,
    repo := { repo_id := r.repo_id, full_name := r.full_name,
              description := r.description, url := r.url,
              owner_id := r.owner_id },
    versions := buildVersions 0 vs }

/-! ## Migration loop (src lines 309-416)

The mongo collection is a list of documents; `insert_one` appends (the
model always yields an inserted id, so the error branch on src lines
404-406, which only prints, is not taken).  The mutable globals become the
fields of `MigState`.  Per processed file the model also reports which
exit the `for` body took and the list of destination-store operations
performed, so that "no lookup / no insert happened" is a statement about
the trace, not only about the final state. -/

/-- `mongo_collection.find_one({"repo.repo_id": rid, "sha": sha})`
(src line 393), as a boolean: was a matching document found? -/
def find_dup (coll : List Document) (rid : Int) (sha : String) : Bool :=
  coll.any (fun d => d.repo.repo_id == rid && d.sha == sha)

/-- Which exit the per-file loop body took. -/
inductive FileOutcome where
  | skippedJson
  | skippedEmpty
  | skippedDuplicate
  | uploaded
  deriving DecidableEq

/-- One operation presented to the destination store. -/
inductive SinkOp where
  | lookup (rid : Int) (sha : String)
  | insert (d : Document)
  deriving DecidableEq

/-- The mutable globals of the script that the loop touches. -/
structure MigState where
  coll : List Document
  repos_handled : Nat
  files_handled : Nat
  commits_handled : Nat
  duplicate_files : Nat
  finished : Nat
  license : String
  deriving DecidableEq

/-- Globals at script start (src lines 88-99): counters zero, `license`
empty, the destination collection in whatever state it already is. -/
def initState (dest : List Document) : MigState :=
  { coll := dest, repos_handled := 0, files_handled := 0,
    commits_handled := 0, duplicate_files := 0, finished := 0,
    license := "" }

/-- One iteration of the inner file loop (src lines 329-411): extension
guard, document construction, commit loop, empty-versions guard,
duplicate lookup, insert. -/
def processFile (src : SourceStore) (r : Repo) (st : MigState)
    (f : FileRow) : MigState × FileOutcome × List SinkOp :=
  if check_file_extension f.path then
    (st, FileOutcome.skippedJson, [])
  else
    let vs := versionsFor src f.file_id
    let doc := buildDocument r f st.license vs
    let st1 := { st with commits_handled := st.commits_handled + vs.length,
                         files_handled := st.files_handled + 1 }
    if doc.versions.isEmpty then
      (st1, FileOutcome.skippedEmpty, [])
    else if find_dup st1.coll r.repo_id f.sha then
      ({ st1 with duplicate_files := st1.duplicate_files + 1 },
       FileOutcome.skippedDuplicate, [SinkOp.lookup r.repo_id f.sha])
    else
      ({ st1 with coll := st1.coll ++ [doc], finished := st1.finished + 1 },
       FileOutcome.uploaded,
       [SinkOp.lookup r.repo_id f.sha, SinkOp.insert doc])

/-- The file loop over one repository's files (src lines 327-411). -/
def processFiles (src : SourceStore) (r : Repo) (st : MigState) : MigState :=
  (filesFor src r.repo_id).foldl (fun s f => (processFile src r s f).1) st

/-- End of one repository iteration (src lines 413-414): reset the global
`license` and count the repository as handled. -/
def finishRepo (st : MigState) : MigState :=
  { st with license := "", repos_handled := st.repos_handled + 1 }

/-- One iteration of the outer repository loop (src lines 309-416).
`checkLic` is `args.checkLicenses`; `api full_name` is the outcome of
`get("https://api.github.com/repos/" + full_name)`, `none` standing for
the sentinel `0` (the fatal `ConnectionError` path never returns and is
treated separately by `signal_handler`).  When the license check fails the
loop `continue`s after bumping `repos_handled` (src lines 317-320) --
note: with no reset of `license` on that path. -/
def processRepo (checkLic : Bool) (api : String → Option GHRepo)
    (src : SourceStore) (st : MigState) (r : Repo) : MigState :=
  if checkLic then
    let c := check_license (api r.full_name) st.license
    let st1 := { st with license := c.2 }
    if c.1 then finishRepo (processFiles src r st1)
    else { st1 with repos_handled := st1.repos_handled + 1 }
  else finishRepo (processFiles src r st)

/-- The whole driver run (src lines 309-416): fold the repository loop
over the `repo` table. -/
def runMigration (checkLic : Bool) (api : String → Option GHRepo)
    (src : SourceStore) (st : MigState) : MigState :=
  src.repos.foldl (processRepo checkLic api src) st


/-! ## Concrete fixtures

Small concrete stores used to instantiate the theorems on explicit
inputs (the end-to-end scenario of the specification: repository
`acme/coin`, file `Token.sol`). -/

def repoW : Repo := ⟨1, "coin", "acme/coin", "d", "u", 7⟩

def repoW2 : Repo := ⟨2, "coin2", "acme/coin2", "d2", "u2", 8⟩

def fileW : FileRow := ⟨10, "Token.sol", "Token.sol", "abc123", 1⟩

/-- A second file in the second repository with the same content hash as
`fileW`. -/
def fileW2 : FileRow := ⟨20, "Token.sol", "Token2.sol", "abc123", 2⟩

/-- A crawl artifact: a `.json` path. -/
def fileJsonW : FileRow := ⟨11, "Foo.sol.json", "contracts/Foo.sol.json", "def456", 1⟩

/-- A file with no version rows. -/
def fileEmptyW : FileRow := ⟨12, "Empty.sol", "Empty.sol", "emp789", 1⟩

def verW : VersionRow := ⟨10, "vsha1", "msg1", 5, 100, "pragma solidity ^0.8.10;", "par1"⟩

def verW2 : VersionRow := ⟨20, "vsha2", "msg2", 6, 200, "c2", "par2"⟩

def srcW : SourceStore := ⟨[repoW], [fileW, fileJsonW, fileEmptyW], [verW]⟩

/-- Two repositories, one file each, identical file sha. -/
def srcW4 : SourceStore := ⟨[repoW, repoW2], [fileW, fileW2], [verW, verW2]⟩

/-! ## Lemmas -/

/-! ### License classifier lemmas -/

/-- The boolean `check_license` returns does not depend on the current
value of the global `license`. -/
theorem check_license_fst (res : Option GHRepo) (lic lic2 : String) :
    (check_license res lic).1 = (check_license res lic2).1 := by
  rcases res with _ | ⟨_ | key⟩
  · rfl
  · rfl
  · by_cases h : key ≠ "" ∧ key ∈ licenses <;> simp [check_license, h]

/-- When `check_license` returns `False` it leaves the global `license`
untouched. -/
theorem check_license_snd_false (res : Option GHRepo) (lic : String)
    (h : (check_license res lic).1 = false) : (check_license res lic).2 = lic := by
  rcases res with _ | ⟨_ | key⟩
  · rfl
  · rfl
  · by_cases hk : key ≠ "" ∧ key ∈ licenses
    · simp [check_license, hk] at h
    · simp [check_license, hk]

/-! ### Document-builder lemmas -/

theorem buildVersions_length (k : Nat) (vs : List VersionRow) :
    (buildVersions k vs).length = vs.length := by
  induction vs generalizing k with
  | nil => rfl
  | cons v vs ih => simp [buildVersions, ih]

/-- The `version_id` fields produced by the commit loop are consecutive
starting from the initial counter value. -/
theorem buildVersions_ids (k : Nat) (vs : List VersionRow) :
    (buildVersions k vs).map (fun d => d.version_id) = List.range' k vs.length := by
  induction vs generalizing k with
  | nil => rfl
  | cons v vs ih => simp [buildVersions, List.range', ih]

theorem buildDocument_versions_isEmpty (r : Repo) (f : FileRow) (lic : String)
    (vs : List VersionRow) :
    (buildDocument r f lic vs).versions.isEmpty = vs.isEmpty := by
  cases vs <;> rfl

theorem versionsFor_length (src : SourceStore) (fid : Int) :
    (versionsFor src fid).length
      = (src.comits.filter (fun v => v.file_id == fid)).length :=
  List.length_insertionSort createdLE _

/-! ### Destination-store lemmas -/

theorem find_dup_append (a b : List Document) (rid : Int) (sha : String) :
    find_dup (a ++ b) rid sha = (find_dup a rid sha || find_dup b rid sha) :=
  List.any_append

theorem find_dup_mono (coll e : List Document) (rid : Int) (sha : String)
    (h : find_dup coll rid sha = true) : find_dup (coll ++ e) rid sha = true := by
  rw [find_dup_append, h, Bool.true_or]

/-- On a 403 the trace of `get` is: this request, then exactly what
`handle_rate_limit_error` does -- the source's call structure. -/
theorem get_resp_403 (url : String) (now : Int) (r : HttpResp)
    (rest : List NetEvent) (h : r.status = 403) :
    get url now (NetEvent.resp r :: rest) =
      let tr := handle_rate_limit_error r now rest
      ⟨tr.result, tr.httpRequests + 1, tr.sleeps, url :: tr.requestedUrls⟩ := by
  unfold get
  simp [handle_rate_limit_error, h]

/-! ### Per-file step lemmas -/

/-- The file step only ever appends to the destination collection. -/
theorem processFile_ext (src : SourceStore) (r : Repo) (st : MigState)
    (f : FileRow) :
    ∃ e, (processFile src r st f).1.coll = st.coll ++ e := by
  unfold processFile
  by_cases h1 : check_file_extension f.path
  · exact ⟨[], by simp [h1]⟩
  · by_cases h2 :
      (buildDocument r f st.license (versionsFor src f.file_id)).versions.isEmpty
    · exact ⟨[], by simp [h1, h2]⟩
    · by_cases h3 : find_dup st.coll r.repo_id f.sha
      · exact ⟨[], by simp [h1, h2, h3]⟩
      · exact ⟨[buildDocument r f st.license (versionsFor src f.file_id)],
          by simp [h1, h2, h3]⟩

/-- After the file step, an eligible file's deduplication key is present
in the collection: either it already was (duplicate branch) or the insert
just put it there. -/
theorem processFile_covers (src : SourceStore) (r : Repo) (st : MigState)
    (f : FileRow) (h1 : check_file_extension f.path = false)
    (h2 : versionsFor src f.file_id ≠ []) :
    find_dup (processFile src r st f).1.coll r.repo_id f.sha = true := by
  unfold processFile
  have hne : (buildDocument r f st.license (versionsFor src f.file_id)).versions.isEmpty = false := by
    rw [buildDocument_versions_isEmpty]
    simpa using h2
  by_cases h3 : find_dup st.coll r.repo_id f.sha
  · simp [h1, hne, h3]
  · simp only [h1, Bool.false_eq_true, if_false, hne, h3, if_true]
    rw [find_dup_append, Bool.or_eq_true]
    right
    simp [find_dup, buildDocument]

/-- When an eligible file's key is already present (or the file is
ineligible), the file step changes neither the collection nor the count
of uploaded documents. -/
theorem processFile_noop (src : SourceStore) (r : Repo) (st : MigState)
    (f : FileRow)
    (h : check_file_extension f.path = false → versionsFor src f.file_id ≠ [] →
         find_dup st.coll r.repo_id f.sha = true) :
    (processFile src r st f).1.coll = st.coll ∧
    (processFile src r st f).1.finished = st.finished := by
  unfold processFile
  by_cases h1 : check_file_extension f.path
  · simp [h1]
  · by_cases h2 :
      (buildDocument r f st.license (versionsFor src f.file_id)).versions.isEmpty
    · simp [h1, h2]
    · have h2v : versionsFor src f.file_id ≠ [] := by
        rw [buildDocument_versions_isEmpty] at h2
        simpa using h2
      have h3 := h (by simpa using h1) h2v
      simp [h1, h2, h3]

/-! ### File-loop lemmas -/

/-- The file loop over any list of file rows only appends to the
collection. -/
theorem foldFiles_ext (src : SourceStore) (r : Repo) :
    ∀ (fs : List FileRow) (st : MigState),
      ∃ e, (fs.foldl (fun s f => (processFile src r s f).1) st).coll
            = st.coll ++ e := by
  intro fs
  induction fs with
  | nil => exact fun st => ⟨[], by simp⟩
  | cons f fs ih =>
    intro st
    obtain ⟨e1, he1⟩ := processFile_ext src r st f
    obtain ⟨e2, he2⟩ := ih (processFile src r st f).1
    exact ⟨e1 ++ e2, by rw [List.foldl_cons, he2, he1, List.append_assoc]⟩

/-- After the file loop, every eligible processed file's key is present
in the collection. -/
theorem foldFiles_covers (src : SourceStore) (r : Repo) :
    ∀ (fs : List FileRow) (st : MigState) (f : FileRow), f ∈ fs →
      check_file_extension f.path = false → versionsFor src f.file_id ≠ [] →
      find_dup ((fs.foldl (fun s g => (processFile src r s g).1) st).coll)
          r.repo_id f.sha = true := by
  intro fs
  induction fs with
  | nil => intro st f hf; cases hf
  | cons g gs ih =>
    intro st f hf h1 h2
    rw [List.foldl_cons]
    rcases List.mem_cons.mp hf with rfl | hmem
    · obtain ⟨e, he⟩ := foldFiles_ext src r gs (processFile src r st f).1
      rw [he]
      exact find_dup_mono _ _ _ _ (processFile_covers src r st f h1 h2)
    · exact ih _ f hmem h1 h2

/-- When every eligible file in the list already has its key in the
collection, the file loop changes neither the collection nor the uploaded
count. -/
theorem foldFiles_noop (src : SourceStore) (r : Repo) :
    ∀ (fs : List FileRow) (st : MigState),
      (∀ f ∈ fs, check_file_extension f.path = false →
        versionsFor src f.file_id ≠ [] →
        find_dup st.coll r.repo_id f.sha = true) →
      (fs.foldl (fun s f => (processFile src r s f).1) st).coll = st.coll ∧
      (fs.foldl (fun s f => (processFile src r s f).1) st).finished
        = st.finished := by
  intro fs
  induction fs with
  | nil => exact fun st _ => ⟨rfl, rfl⟩
  | cons f fs ih =>
    intro st h
    obtain ⟨hc, hf⟩ := processFile_noop src r st f (h f (List.mem_cons_self f fs))
    rw [List.foldl_cons]
    obtain ⟨hc2, hf2⟩ := ih (processFile src r st f).1 (by
      intro g hg e1 e2
      rw [hc]
      exact h g (List.mem_cons_of_mem f hg) e1 e2)
    exact ⟨hc2.trans hc, hf2.trans hf⟩

/-! ### Repository-loop lemmas -/

/-- One repository iteration only appends to the collection. -/
theorem processRepo_ext (c : Bool) (api : String → Option GHRepo)
    (src : SourceStore) (st : MigState) (r : Repo) :
    ∃ e, (processRepo c api src st r).coll = st.coll ++ e := by
  unfold processRepo
  cases c with
  | false =>
    simpa [finishRepo, processFiles] using
      foldFiles_ext src r (filesFor src r.repo_id) st
  | true =>
    by_cases hl : (check_license (api r.full_name) st.license).1
    · simpa [hl, finishRepo, processFiles] using
        foldFiles_ext src r (filesFor src r.repo_id)
          { st with license := (check_license (api r.full_name) st.license).2 }
    · exact ⟨[], by simp [hl]⟩

/-- After a repository iteration that was not skipped by the license
check, every eligible file of that repository has its key in the
collection. -/
theorem processRepo_covers (c : Bool) (api : String → Option GHRepo)
    (src : SourceStore) (st : MigState) (r : Repo)
    (hlic : c = false ∨ (check_license (api r.full_name) "").1 = true)
    (f : FileRow) (hf : f ∈ filesFor src r.repo_id)
    (h1 : check_file_extension f.path = false)
    (h2 : versionsFor src f.file_id ≠ []) :
    find_dup ((processRepo c api src st r).coll) r.repo_id f.sha = true := by
  unfold processRepo
  cases c with
  | false =>
    simpa [finishRepo, processFiles] using
      foldFiles_covers src r (filesFor src r.repo_id) st f hf h1 h2
  | true =>
    have hl : (check_license (api r.full_name) st.license).1 = true := by
      rcases hlic with h | h
      · cases h
      · rw [check_license_fst (api r.full_name) st.license ""]
        exact h
    simpa [hl, finishRepo, processFiles] using
      foldFiles_covers src r (filesFor src r.repo_id)
        { st with license := (check_license (api r.full_name) st.license).2 }
        f hf h1 h2

/-- When every eligible file of the repository already has its key in the
collection, the repository iteration changes neither the collection nor
the uploaded count. -/
theorem processRepo_noop (c : Bool) (api : String → Option GHRepo)
    (src : SourceStore) (st : MigState) (r : Repo)
    (h : (c = false ∨ (check_license (api r.full_name) "").1 = true) →
         ∀ f ∈ filesFor src r.repo_id, check_file_extension f.path = false →
         versionsFor src f.file_id ≠ [] →
         find_dup st.coll r.repo_id f.sha = true) :
    (processRepo c api src st r).coll = st.coll ∧
    (processRepo c api src st r).finished = st.finished := by
  unfold processRepo
  cases c with
  | false =>
    simpa [finishRepo, processFiles] using
      foldFiles_noop src r (filesFor src r.repo_id) st (h (Or.inl rfl))
  | true =>
    by_cases hl : (check_license (api r.full_name) st.license).1
    · have hl0 : (check_license (api r.full_name) "").1 = true := by
        rw [check_license_fst (api r.full_name) "" st.license]
        exact hl
      simpa [hl, finishRepo, processFiles] using
        foldFiles_noop src r (filesFor src r.repo_id)
          { st with license := (check_license (api r.full_name) st.license).2 }
          (h (Or.inr hl0))
    · simp [hl]

/-- The repository loop over any repository list only appends to the
collection. -/
theorem foldRepos_ext (c : Bool) (api : String → Option GHRepo)
    (src : SourceStore) :
    ∀ (rs : List Repo) (st : MigState),
      ∃ e, (rs.foldl (processRepo c api src) st).coll = st.coll ++ e := by
  intro rs
  induction rs with
  | nil => exact fun st => ⟨[], by simp⟩
  | cons r rs ih =>
    intro st
    obtain ⟨e1, he1⟩ := processRepo_ext c api src st r
    obtain ⟨e2, he2⟩ := ih (processRepo c api src st r)
    exact ⟨e1 ++ e2, by rw [List.foldl_cons, he2, he1, List.append_assoc]⟩

/-- After the repository loop, every eligible file of every repository
that passes the license gate has its key in the collection. -/
theorem foldRepos_covers (c : Bool) (api : String → Option GHRepo)
    (src : SourceStore) :
    ∀ (rs : List Repo) (st : MigState) (r : Repo), r ∈ rs →
      (c = false ∨ (check_license (api r.full_name) "").1 = true) →
      ∀ f ∈ filesFor src r.repo_id, check_file_extension f.path = false →
      versionsFor src f.file_id ≠ [] →
      find_dup ((rs.foldl (processRepo c api src) st).coll) r.repo_id f.sha
        = true := by
  intro rs
  induction rs with
  | nil => intro st r hr; cases hr
  | cons r0 rs ih =>
    intro st r hr hlic f hf h1 h2
    rw [List.foldl_cons]
    rcases List.mem_cons.mp hr with rfl | hmem
    · obtain ⟨e, he⟩ := foldRepos_ext c api src rs (processRepo c api src st r)
      rw [he]
      exact find_dup_mono _ _ _ _
        (processRepo_covers c api src st r hlic f hf h1 h2)
    · exact ih _ r hmem hlic f hf h1 h2

/-- When the collection already covers every repository in the list, the
repository loop changes neither the collection nor the uploaded count. -/
theorem foldRepos_noop (c : Bool) (api : String → Option GHRepo)
    (src : SourceStore) :
    ∀ (rs : List Repo) (st : MigState),
      (∀ r ∈ rs, (c = false ∨ (check_license (api r.full_name) "").1 = true) →
        ∀ f ∈ filesFor src r.repo_id, check_file_extension f.path = false →
        versionsFor src f.file_id ≠ [] →
        find_dup st.coll r.repo_id f.sha = true) →
      (rs.foldl (processRepo c api src) st).coll = st.coll ∧
      (rs.foldl (processRepo c api src) st).finished = st.finished := by
  intro rs
  induction rs with
  | nil => exact fun st _ => ⟨rfl, rfl⟩
  | cons r rs ih =>
    intro st h
    obtain ⟨hc, hf⟩ := processRepo_noop c api src st r
      (fun hlic => h r (List.mem_cons_self r rs) hlic)
    rw [List.foldl_cons]
    obtain ⟨hc2, hf2⟩ := ih (processRepo c api src st r) (by
      intro r2 hr2 hlic f hfm e1 e2
      rw [hc]
      exact h r2 (List.mem_cons_of_mem r hr2) hlic f hfm e1 e2)
    exact ⟨hc2.trans hc, hf2.trans hf⟩

/-! ### License-verdict invariant -/

/-- One repository iteration started with an empty license verdict ends
with an empty license verdict: the non-skip path resets it explicitly
(src line 413), and on the license-skip path (src lines 317-320)
`check_license` returned `False` and therefore left the verdict at its
incoming (empty) value. -/
theorem processRepo_license (c : Bool) (api : String → Option GHRepo)
    (src : SourceStore) (st : MigState) (r : Repo) (h : st.license = "") :
    (processRepo c api src st r).license = "" := by
  unfold processRepo
  cases c with
  | false => simp [finishRepo]
  | true =>
    by_cases hl : (check_license (api r.full_name) st.license).1
    · simp [hl, finishRepo]
    · have h2 := check_license_snd_false (api r.full_name) st.license
        (Bool.not_eq_true _ ▸ hl)
      rw [if_neg hl]
      simpa [h2] using h

/-! ## Claims -/

/-- C8: the compiler-version extractor returns the numeric version
captured from the first occurrence of a version-pragma declaration and
ignores any later pragmas (whatever text, including further pragmas,
follows the first declaration, the result is unchanged); for text
containing `pragma solidity ^0.8.10;` it returns `"0.8.10"`, and for text
with no such declaration it returns `none`. -/
theorem C8_compiler_version :
    (∀ s : String,
      get_compiler_version ("pragma solidity ^0.8.10;" ++ s) = some "0.8.10")
    ∧ get_compiler_version
        "// SPDX\npragma solidity ^0.8.10;\npragma solidity ^0.4.0;"
        = some "0.8.10"
    ∧ get_compiler_version "contract Foo" = none := by
  refine ⟨?_, rfl, rfl⟩
  intro s
  cases s with
  | mk l => rfl

/-- C9: a file whose path ends in `.json` is skipped before any Document
is built: the per-file step leaves the whole state unchanged (so the file
is counted neither as uploaded nor as duplicate), takes the
`skippedJson` exit, and presents no operation (neither lookup nor
insert) to the destination store. -/
theorem C9_json_guard (src : SourceStore) (r : Repo) (st : MigState)
    (f : FileRow) (h : check_file_extension f.path = true) :
    processFile src r st f = (st, FileOutcome.skippedJson, []) := by
  unfold processFile
  rw [if_pos h]

theorem C9_json_guard_witness :
    check_file_extension fileJsonW.path = true
    ∧ processFile srcW repoW (initState []) fileJsonW
        = (initState [], FileOutcome.skippedJson, []) :=
  ⟨by decide, C9_json_guard srcW repoW (initState []) fileJsonW (by decide)⟩

/-- C2: a file whose ordered version list is empty is never presented to
the destination store: the per-file step performs no sink operation
(neither the duplicate lookup nor the insert) and leaves the destination
collection unchanged. -/
theorem C2_empty_guard (src : SourceStore) (r : Repo) (st : MigState)
    (f : FileRow) (h : versionsFor src f.file_id = []) :
    (processFile src r st f).2.2 = [] ∧
    (processFile src r st f).1.coll = st.coll := by
  unfold processFile
  by_cases h1 : check_file_extension f.path
  · simp [h1]
  · have he : (buildDocument r f st.license (versionsFor src f.file_id)).versions.isEmpty = true := by
      rw [buildDocument_versions_isEmpty, h]
      rfl
    simp [h1, he]

theorem C2_empty_guard_witness :
    versionsFor srcW fileEmptyW.file_id = []
    ∧ (processFile srcW repoW (initState []) fileEmptyW).2.2 = []
    ∧ (processFile srcW repoW (initState []) fileEmptyW).1.coll
        = (initState []).coll :=
  ⟨by decide, C2_empty_guard srcW repoW (initState []) fileEmptyW (by decide)⟩

/-- C10: the license classifier changes the stored license verdict only
when it returns `True`, and then it stores exactly the allow-listed key
of the API response; on every `False` path (API sentinel, missing license
field, key outside the allow-list) the previously stored verdict is left
unchanged. -/
theorem C10_license_frame (res : Option GHRepo) (lic : String) :
    ((check_license res lic).1 = false → (check_license res lic).2 = lic)
    ∧ ((check_license res lic).1 = true →
        (check_license res lic).2 ∈ licenses
        ∧ ∃ g, res = some g ∧ g.license = some (check_license res lic).2) := by
  constructor
  · exact check_license_snd_false res lic
  · intro h
    rcases res with _ | ⟨_ | key⟩
    · simp [check_license] at h
    · simp [check_license] at h
    · by_cases hk : key ≠ "" ∧ key ∈ licenses
      · simp [check_license, hk]
      · simp [check_license, hk] at h

theorem C10_license_frame_witness :
    ((check_license (some ⟨some "wtfpl"⟩) "mit").1 = false
      ∧ (check_license (some ⟨some "wtfpl"⟩) "mit").2 = "mit")
    ∧ ((check_license (some ⟨some "gpl-3.0"⟩) "").1 = true
      ∧ (check_license (some ⟨some "gpl-3.0"⟩) "").2 ∈ licenses) :=
  ⟨⟨by decide, (C10_license_frame (some ⟨some "wtfpl"⟩) "mit").1 (by decide)⟩,
   ⟨by decide,
    ((C10_license_frame (some ⟨some "gpl-3.0"⟩) "").2 (by decide)).1⟩⟩

/-- C5: after the driver finishes any sequence of repositories (each one
skipped for a failed license check or fully traversed), the transient
license verdict in the driver state is the empty string, so it is empty
before the next repository is considered. -/
theorem C5_license_reset (c : Bool) (api : String → Option GHRepo)
    (src : SourceStore) (dest0 : List Document) (rs : List Repo) :
    (rs.foldl (processRepo c api src) (initState dest0)).license = "" := by
  have h : ∀ (l : List Repo) (st : MigState), st.license = "" →
      (l.foldl (processRepo c api src) st).license = "" := by
    intro l
    induction l with
    | nil => exact fun st h => h
    | cons r l ih =>
      intro st h
      rw [List.foldl_cons]
      exact ih _ (processRepo_license c api src st r h)
  exact h rs (initState dest0) rfl

/-- C6: on HTTP 403 the client computes the wait as `max(0, reset - now)`
when the reset-time header is present and otherwise as the retry-after
value defaulting to 60 seconds, sleeps, and re-issues the same request
(same URL), repeating for every consecutive 403 with no attempt cap: for
a scripted response sequence of k 403s followed by a 200, exactly k+1
requests are issued, all to the same URL, and the 200 response is
returned. -/
theorem C6_rate_limit_retry (url : String) (now : Int)
    (fours : List HttpResp) (r200 : HttpResp)
    (h403 : ∀ r ∈ fours, r.status = 403 ∧ r.url = url)
    (h200 : r200.status = 200) :
    (get url now (fours.map NetEvent.resp ++ [NetEvent.resp r200])).result
        = some (GetResult.ok r200)
    ∧ (get url now (fours.map NetEvent.resp ++ [NetEvent.resp r200])).httpRequests
        = fours.length + 1
    ∧ (get url now (fours.map NetEvent.resp ++ [NetEvent.resp r200])).requestedUrls
        = List.replicate (fours.length + 1) url
    ∧ (∀ r rest, fours = r :: rest →
        (get url now (fours.map NetEvent.resp ++ [NetEvent.resp r200])).sleeps.head?
          = some (match r.xRateLimitReset with
                  | some t => max 0 (t - now)
                  | none => r.retryAfter.getD 60)) := by
  induction fours generalizing now with
  | nil =>
    have h4 : r200.status ≠ 403 := by rw [h200]; decide
    refine ⟨?_, ?_, ?_, ?_⟩ <;>
      simp [get, h4, h200]
  | cons r fours ih =>
    obtain ⟨hr, hu⟩ := h403 r (List.mem_cons_self r fours)
    have htl : ∀ x ∈ fours, x.status = 403 ∧ x.url = url :=
      fun x hx => h403 x (List.mem_cons_of_mem r hx)
    obtain ⟨ih1, ih2, ih3, _⟩ := ih (now + rateLimitWait r now) htl
    rw [List.map_cons, List.cons_append]
    have hgoal : get url now (NetEvent.resp r ::
          (List.map NetEvent.resp fours ++ [NetEvent.resp r200]))
        = ⟨(get r.url (now + rateLimitWait r now)
              (List.map NetEvent.resp fours ++ [NetEvent.resp r200])).result,
           (get r.url (now + rateLimitWait r now)
              (List.map NetEvent.resp fours ++ [NetEvent.resp r200])).httpRequests + 1,
           rateLimitWait r now :: (get r.url (now + rateLimitWait r now)
              (List.map NetEvent.resp fours ++ [NetEvent.resp r200])).sleeps,
           url :: (get r.url (now + rateLimitWait r now)
              (List.map NetEvent.resp fours ++ [NetEvent.resp r200])).requestedUrls⟩ := by
      simp [get, hr]
    rw [hgoal, hu]
    refine ⟨ih1, by simp [ih2], ?_, ?_⟩
    · show url :: _ = _
      simp [ih3, List.replicate_succ]
    · intro r0 rest0 hcons
      injection hcons with h1 h2
      subst h1
      subst h2
      rw [List.head?_cons]
      unfold rateLimitWait
      rfl

theorem C6_rate_limit_retry_witness :
    (∀ r ∈ [(⟨403, some 5, none, "u"⟩ : HttpResp),
            (⟨403, none, some 7, "u"⟩ : HttpResp)],
        r.status = 403 ∧ r.url = "u")
    ∧ (⟨200, none, none, "u"⟩ : HttpResp).status = 200
    ∧ (get "u" 0 ([(⟨403, some 5, none, "u"⟩ : HttpResp),
          (⟨403, none, some 7, "u"⟩ : HttpResp)].map NetEvent.resp
            ++ [NetEvent.resp ⟨200, none, none, "u"⟩])).result
        = some (GetResult.ok ⟨200, none, none, "u"⟩)
    ∧ (get "u" 0 ([(⟨403, some 5, none, "u"⟩ : HttpResp),
          (⟨403, none, some 7, "u"⟩ : HttpResp)].map NetEvent.resp
            ++ [NetEvent.resp ⟨200, none, none, "u"⟩])).httpRequests = 3
    ∧ (get "u" 0 ([(⟨403, some 5, none, "u"⟩ : HttpResp),
          (⟨403, none, some 7, "u"⟩ : HttpResp)].map NetEvent.resp
            ++ [NetEvent.resp ⟨200, none, none, "u"⟩])).sleeps.head? = some 5 := by
  have h := C6_rate_limit_retry "u" 0
      [⟨403, some 5, none, "u"⟩, ⟨403, none, some 7, "u"⟩]
      ⟨200, none, none, "u"⟩ (by decide) (by decide)
  exact ⟨by decide, by decide, h.1, h.2.1,
    h.2.2.2 ⟨403, some 5, none, "u"⟩ [⟨403, none, some 7, "u"⟩] rfl⟩

/-- C7 counterexample: at a concrete transport-level connectivity failure
the client takes the shutdown path, but `signal_handler` terminates the
process via `sys.exit(0)`: the exit code is 0, not non-zero as claimed. -/
theorem C7_shutdown_counterexample :
    (get "https://api.github.com/repos/acme/coin" 0 [NetEvent.connFail]).result
        = some GetResult.connError
    ∧ (signal_handler ⟨true, true⟩).exitCode = 0
    ∧ ¬(signal_handler ⟨true, true⟩).exitCode ≠ 0 := by
  refine ⟨rfl, rfl, ?_⟩
  decide

/-- C7 amended: a transport-level connectivity failure during an API call
triggers the orderly-shutdown sequence (both store connections closed,
summary counters emitted) and terminates the process immediately -- no
retry: no further request, no sleep -- but with exit code 0. -/
theorem C7_conn_failure_shutdown (url : String) (now : Int)
    (rest : List NetEvent) (s : ProcState) :
    (get url now (NetEvent.connFail :: rest)).result = some GetResult.connError
    ∧ (get url now (NetEvent.connFail :: rest)).httpRequests = 0
    ∧ (get url now (NetEvent.connFail :: rest)).sleeps = []
    ∧ (get url now (NetEvent.connFail :: rest)).requestedUrls = [url]
    ∧ (signal_handler s).final.dbOpen = false
    ∧ (signal_handler s).final.mongoOpen = false
    ∧ (signal_handler s).summaryEmitted = true
    ∧ (signal_handler s).exitCode = 0 :=
  ⟨rfl, rfl, rfl, rfl, rfl, rfl, rfl, rfl⟩

/-- C1: for every file with at least one version row, the Document built
by the migration loop has a `versions` array whose length equals the
number of version rows for that file in the source store, whose
`version_id` fields are exactly 0, 1, ..., N-1 in order, and the order in
which the versions are read is ascending in the created timestamp. -/
theorem C1_versions_indexed (src : SourceStore) (r : Repo) (f : FileRow)
    (lic : String) (h : versionsFor src f.file_id ≠ []) :
    (buildDocument r f lic (versionsFor src f.file_id)).versions.length
        = (src.comits.filter (fun v => v.file_id == f.file_id)).length
    ∧ (buildDocument r f lic (versionsFor src f.file_id)).versions.map
          (fun v => v.version_id)
        = List.range
            ((buildDocument r f lic (versionsFor src f.file_id)).versions.length)
    ∧ List.Sorted createdLE (versionsFor src f.file_id) := by
  refine ⟨?_, ?_, List.sorted_insertionSort createdLE _⟩
  · show (buildVersions 0 (versionsFor src f.file_id)).length = _
    rw [buildVersions_length, versionsFor_length]
  · show (buildVersions 0 (versionsFor src f.file_id)).map _
        = List.range (buildVersions 0 (versionsFor src f.file_id)).length
    rw [buildVersions_ids, buildVersions_length, List.range_eq_range']

theorem C1_versions_indexed_witness :
    versionsFor srcW fileW.file_id ≠ []
    ∧ ((buildDocument repoW fileW "" (versionsFor srcW fileW.file_id)).versions.length
        = (srcW.comits.filter (fun v => v.file_id == fileW.file_id)).length
      ∧ (buildDocument repoW fileW "" (versionsFor srcW fileW.file_id)).versions.map
            (fun v => v.version_id)
          = List.range
              ((buildDocument repoW fileW ""
                  (versionsFor srcW fileW.file_id)).versions.length)
      ∧ List.Sorted createdLE (versionsFor srcW fileW.file_id)) :=
  ⟨by decide, C1_versions_indexed srcW repoW fileW "" (by decide)⟩

/-- C3: running the full driver twice over an unchanged source store
against the same destination store inserts zero new documents on the
second run: starting from whatever the first run left in the destination
collection, the second run leaves the collection exactly as it was and
its uploaded-documents counter stays 0, because for every file that
reaches the duplicate lookup the key (repo.repo_id, sha) is found. -/
theorem C3_idempotent (c : Bool) (api : String → Option GHRepo)
    (src : SourceStore) (dest0 : List Document) :
    (runMigration c api src
        (initState ((runMigration c api src (initState dest0)).coll))).coll
      = (runMigration c api src (initState dest0)).coll
    ∧ (runMigration c api src
        (initState ((runMigration c api src (initState dest0)).coll))).finished
      = 0 := by
  have hcov : ∀ r ∈ src.repos,
      (c = false ∨ (check_license (api r.full_name) "").1 = true) →
      ∀ f ∈ filesFor src r.repo_id, check_file_extension f.path = false →
      versionsFor src f.file_id ≠ [] →
      find_dup (runMigration c api src (initState dest0)).coll
        r.repo_id f.sha = true := by
    intro r hr hlic f hf h1 h2
    exact foldRepos_covers c api src src.repos (initState dest0) r hr hlic f hf h1 h2
  have h2 := foldRepos_noop c api src src.repos
    (initState (runMigration c api src (initState dest0)).coll) hcov
  exact h2

/-- C4: the duplicate check keys on the pair (repository id, file sha),
not on the hash alone: for two files in two different repositories with
identical content hash, when neither pair is already present in the
destination, a run over the two repositories inserts both files as
separate Documents. -/
theorem C4_dedup_key_is_pair (api : String → Option GHRepo) (r1 r2 : Repo)
    (f1 f2 : FileRow) (v1 v2 : VersionRow) (dest0 : List Document)
    (hr : r1.repo_id ≠ r2.repo_id)
    (hf1 : f1.repo_id = r1.repo_id) (hf2 : f2.repo_id = r2.repo_id)
    (hsha : f1.sha = f2.sha)
    (hj1 : check_file_extension f1.path = false)
    (hj2 : check_file_extension f2.path = false)
    (hv1 : v1.file_id = f1.file_id) (hv2 : v2.file_id = f2.file_id)
    (hff : f1.file_id ≠ f2.file_id)
    (hd1 : find_dup dest0 r1.repo_id f1.sha = false)
    (hd2 : find_dup dest0 r2.repo_id f2.sha = false) :
    (runMigration false api ⟨[r1, r2], [f1, f2], [v1, v2]⟩ (initState dest0)).coll
      = dest0 ++ [buildDocument r1 f1 "" [v1], buildDocument r2 f2 "" [v2]] := by
  have e12 : (r1.repo_id == r2.repo_id) = false := beq_eq_false_iff_ne.mpr hr
  have e21 : (r2.repo_id == r1.repo_id) = false :=
    beq_eq_false_iff_ne.mpr (Ne.symm hr)
  have ef12 : (f1.file_id == f2.file_id) = false := beq_eq_false_iff_ne.mpr hff
  have ef21 : (f2.file_id == f1.file_id) = false :=
    beq_eq_false_iff_ne.mpr (Ne.symm hff)
  have hfiles1 : filesFor ⟨[r1, r2], [f1, f2], [v1, v2]⟩ r1.repo_id = [f1] := by
    simp [filesFor, List.filter, hf1, hf2, e21]
  have hfiles2 : filesFor ⟨[r1, r2], [f1, f2], [v1, v2]⟩ r2.repo_id = [f2] := by
    simp [filesFor, List.filter, hf1, hf2, e12]
  have hvs1 : versionsFor ⟨[r1, r2], [f1, f2], [v1, v2]⟩ f1.file_id = [v1] := by
    simp [versionsFor, List.filter, hv1, hv2, ef21,
      List.insertionSort, List.orderedInsert]
  have hvs2 : versionsFor ⟨[r1, r2], [f1, f2], [v1, v2]⟩ f2.file_id = [v2] := by
    simp [versionsFor, List.filter, hv1, hv2, ef12,
      List.insertionSort, List.orderedInsert]
  have hd2b : find_dup (dest0 ++ [buildDocument r1 f1 "" [v1]])
      r2.repo_id f2.sha = false := by
    rw [find_dup_append, hd2]
    simp [find_dup, buildDocument, e12]
  simp [runMigration, processRepo, processFiles, processFile, finishRepo,
    initState, hfiles1, hfiles2, hvs1, hvs2, hj1, hj2, hd1, hd2b,
    buildDocument_versions_isEmpty]

theorem C4_dedup_key_is_pair_witness :
    (repoW.repo_id ≠ repoW2.repo_id ∧ fileW.sha = fileW2.sha
      ∧ find_dup [] repoW.repo_id fileW.sha = false
      ∧ find_dup [] repoW2.repo_id fileW2.sha = false)
    ∧ (runMigration false (fun _ => none) srcW4 (initState [])).coll
      = [] ++ [buildDocument repoW fileW "" [verW],
               buildDocument repoW2 fileW2 "" [verW2]] :=
  ⟨⟨by decide, by decide, by decide, by decide⟩,
   C4_dedup_key_is_pair (fun _ => none) repoW repoW2 fileW fileW2 verW verW2 []
     (by decide) (by decide) (by decide) (by decide) (by decide) (by decide)
     (by decide) (by decide) (by decide) (by decide) (by decide)⟩

end Script
